import Mathlib

/-!
Shallow embedding of `pythoncad/new_api.py`.

The repository is a small 2D CAD object model: drawings contain layers,
layers contain entities, and constraints over points are translated into
primitives registered with an external cassowary `SimplexSolver`.

The external solver is out of repo; we model it as a trace of the
primitives the repository registers with it (`add_stay` and
`add_constraint` calls), with the argument expressions kept as syntax
trees exactly as the Python code builds them.  Python's mutable object
graph (drawing/layer/entity membership with back-pointers, visibility
flags) is modelled as an explicit world state over numeric object ids.
Numeric coordinates are modelled as rationals.
-/

namespace PyCad

/-- A cassowary `Variable`: a name together with the value it was created
with.  `Point.__init__` creates one per coordinate, named from the point's
identity and carrying the coordinate's value at creation time. -/
structure Variable where
  name : String
  value : ℚ
deriving DecidableEq

/-- Solver-side expressions, kept as syntax trees exactly as the Python
source builds them (`-`, `+`, `**`, `math.sqrt`, `abs`). -/
inductive Expr where
  | var (v : Variable)
  | const (c : ℚ)
  | add (a b : Expr)
  | sub (a b : Expr)
  | pow (a : Expr) (n : ℕ)
  | sqrtE (a : Expr)
  | absE (a : Expr)
deriving DecidableEq

/-- Constraint strengths.  The repository only ever uses `REQUIRED`. -/
inductive Strength where
  | REQUIRED
deriving DecidableEq

/-- A primitive registered with the external solver: either a stay on a
variable (`solver.add_stay`) or an equality between two expressions
(`solver.add_constraint(lhs == rhs)`). -/
inductive Cmd where
  | add_stay (v : Variable) (s : Strength)
  | add_constraint (lhs rhs : Expr)
deriving DecidableEq

/-- The external `SimplexSolver`, modelled by the trace of primitives the
repository has registered with it, in registration order. -/
structure SimplexSolver where
  commands : List Cmd
deriving DecidableEq

/-- Python `SimplexSolver()`: a fresh solver with no registered primitives. -/
def SimplexSolver.new : SimplexSolver := ⟨[]⟩

/-- Python `solver.add_stay(v, strength)`. -/
def SimplexSolver.add_stay (s : SimplexSolver) (v : Variable) (st : Strength) :
    SimplexSolver := ⟨s.commands ++ [Cmd.add_stay v st]⟩

/-- Python `solver.add_constraint(lhs == rhs)`. -/
def SimplexSolver.add_constraint (s : SimplexSolver) (l r : Expr) :
    SimplexSolver := ⟨s.commands ++ [Cmd.add_constraint l r]⟩

/-- A `Point` as captured by a constraint: its identity (`id(self)` in
Python) and the coordinates it was constructed with, which are the values
its solver variables carry. -/
structure Point where
  id : ℕ
  x : ℚ
  y : ℚ
deriving DecidableEq

/-- Python `Variable('x{}'.format(id(self)), self.x)`: the point's x solver
variable, i.e. `solver_variables[0]`. -/
def Point.xvar (p : Point) : Variable := ⟨"x" ++ toString p.id, p.x⟩

/-- Python `Variable('y{}'.format(id(self)), self.y)`: the point's y solver
variable, i.e. `solver_variables[1]`. -/
def Point.yvar (p : Point) : Variable := ⟨"y" ++ toString p.id, p.y⟩

/-- Python `self.solver_variables` as set up by `Point.__init__`. -/
def Point.solver_variables (p : Point) : List Variable := [p.xvar, p.yvar]

/-- The concrete `Constraint` subclasses provided by `new_api.py`, with
the constructor arguments each `__init__` stores. -/
inductive Constraint where
  | FixedConstraint (point : Point)
  | HorizontalConstraint (p1 p2 : Point)
  | VerticalConstraint (p1 p2 : Point)
  | LengthConstraint (p1 p2 : Point) (length : ℚ)
  | HorizontalLengthConstraint (p1 p2 : Point) (length : ℚ)
deriving DecidableEq

/-- The mutable stored coordinates (`_x`, `_y`) of every point, by point
id.  Threaded through `apply` to record that applying a constraint never
writes to them. -/
def PointStore : Type := ℕ → ℚ × ℚ

/-- Python `Constraint.apply(solver)` for each concrete subclass, translated
line by line from the Python bodies.  The point store is passed through
because the Python bodies contain no assignment to any point attribute:
their only effect is on the solver. -/
def Constraint.apply : Constraint → PointStore → SimplexSolver → PointStore × SimplexSolver
  | .FixedConstraint p, ps, s =>
      (ps, (s.add_stay p.xvar Strength.REQUIRED).add_stay p.yvar Strength.REQUIRED)
  | .HorizontalConstraint p1 p2, ps, s =>
      (ps, s.add_constraint (Expr.var p1.yvar) (Expr.var p2.yvar))
  | .VerticalConstraint p1 p2, ps, s =>
      (ps, s.add_constraint (Expr.var p1.xvar) (Expr.var p2.xvar))
  | .LengthConstraint p1 p2 len, ps, s =>
      let x := Expr.sub (Expr.var p2.xvar) (Expr.var p1.xvar)
      let y := Expr.sub (Expr.var p2.yvar) (Expr.var p1.yvar)
      (ps, s.add_constraint (Expr.sqrtE (Expr.add (Expr.pow x 2) (Expr.pow y 2))) (Expr.const len))
  | .HorizontalLengthConstraint p1 p2 len, ps, s =>
      let x := Expr.absE (Expr.sub (Expr.var p2.xvar) (Expr.var p1.xvar))
      (ps, s.add_constraint x (Expr.const len))

/-- The trace of primitives a single constraint registers: what `apply`
adds to a fresh solver. -/
def Constraint.applyCmds (c : Constraint) : List Cmd :=
  ((c.apply (fun _ => (0, 0)) SimplexSolver.new).2).commands

/-- On any starting solver, `apply` leaves the point store untouched and
appends exactly the constraint's trace to the solver's commands. -/
theorem Constraint.apply_eq (c : Constraint) (ps : PointStore) (s : SimplexSolver) :
    c.apply ps s = (ps, ⟨s.commands ++ c.applyCmds⟩) := by
  cases c <;>
    simp [Constraint.apply, Constraint.applyCmds, SimplexSolver.add_stay,
      SimplexSolver.add_constraint, SimplexSolver.new]

/-- Syntactic polynomial degree bound of a solver expression: `none` when
the expression is not a polynomial in the solver variables (it contains a
square root or an absolute value). -/
def Expr.polyDeg : Expr → Option ℕ
  | .var _ => some 1
  | .const _ => some 0
  | .add a b =>
      match a.polyDeg, b.polyDeg with
      | some m, some n => some (max m n)
      | _, _ => none
  | .sub a b =>
      match a.polyDeg, b.polyDeg with
      | some m, some n => some (max m n)
      | _, _ => none
  | .pow a n => a.polyDeg.map (· * n)
  | .sqrtE _ => none
  | .absE _ => none

/-- The expression is a polynomial of degree at most two in the solver
variables. -/
def Expr.quadPoly (e : Expr) : Bool :=
  match e.polyDeg with
  | some k => k ≤ 2
  | none => false

/-- The expression is a polynomial of degree at most two, possibly under
one outer `sqrt` or `abs`.  For nonnegative right-hand sides, an equality
`sqrt q = c` (resp. `abs q = c`) is equivalent to the polynomial equality
`q = c ^ 2` (resp. `q ^ 2 = c ^ 2`), so such a side still encodes a
linear/quadratic equality; the semantic justification is proved over ℝ
alongside the claim. -/
def Expr.quadPolyUnderRoot : Expr → Bool
  | .sqrtE a => a.quadPoly
  | .absE a => a.quadPoly
  | e => e.quadPoly

/-- The registered primitive is a linear or quadratic equality
constraint.  A stay registered via `add_stay` pins a variable to its
current value, i.e. cassowary's own (linear) equality `v = v.value`. -/
def Cmd.isLinQuadEquality : Cmd → Bool
  | .add_stay _ _ => true
  | .add_constraint l r => l.quadPolyUnderRoot && r.quadPolyUnderRoot

/-- The solver variables an expression mentions, in occurrence order. -/
def Expr.varsOf : Expr → List Variable
  | .var v => [v]
  | .const _ => []
  | .add a b => a.varsOf ++ b.varsOf
  | .sub a b => a.varsOf ++ b.varsOf
  | .pow a _ => a.varsOf
  | .sqrtE a => a.varsOf
  | .absE a => a.varsOf

/-!
## The object graph

`Drawing.add_layer` / `remove_layer` and `Layer.add_entity` /
`remove_entity` are the same code shape: a list of children on the parent
plus a back-pointer (`layer.drawing`, `entity.layer`) on the child.  We
model one containment relation over numeric object ids and instantiate it
for both levels.  Python's `list.remove` removes the first occurrence and
raises `ValueError` when absent; the `try`/`except` around it makes the
absent case a no-op, which is the `else` branch below.
-/

/-- One parent/child containment level: each parent id's list of children
(`drawing.layers` resp. `layer.entities`) and each child's back-pointer
(`layer.drawing` resp. `entity.layer`). -/
structure Containment where
  children : ℕ → List ℕ
  parentOf : ℕ → Option ℕ

/-- Python `remove_layer` / `remove_entity`: remove the child from this parent's
list and clear its back-pointer; when the child is not in the list the
`ValueError` is swallowed and nothing changes. -/
def Containment.detach (c : Containment) (p x : ℕ) : Containment :=
  if x ∈ c.children p then
    ⟨Function.update c.children p ((c.children p).erase x),
     Function.update c.parentOf x none⟩
  else c

/-- The first step of `add_layer` / `add_entity`:
`try: child.parent.remove(child) except AttributeError: pass` — detach
the child from its current parent, a no-op when the back-pointer is
`None` (the `AttributeError` case). -/
def Containment.orphan (c : Containment) (x : ℕ) : Containment :=
  match c.parentOf x with
  | none => c
  | some p0 => c.detach p0 x

/-- Python `add_layer` / `add_entity`: first detach from any current parent,
then append the child to this parent's list and set its back-pointer. -/
def Containment.attach (c : Containment) (p x : ℕ) : Containment :=
  let c1 := c.orphan x
  ⟨Function.update c1.children p (c1.children p ++ [x]),
   Function.update c1.parentOf x (some p)⟩

/-- The whole mutable object graph: drawing/layer containment,
layer/entity containment, the two levels of visibility flags, and each
drawing's list of constraints. -/
structure World where
  layerC : Containment
  entityC : Containment
  layerVisible : ℕ → Bool
  entityVisible : ℕ → Bool
  constraintsOf : ℕ → List Constraint

/-- Python `drawing.layers`. -/
def Drawing.layers (d : ℕ) (w : World) : List ℕ := w.layerC.children d

/-- Python `Drawing.add_layer`. -/
def Drawing.add_layer (d l : ℕ) (w : World) : World :=
  { w with layerC := w.layerC.attach d l }

/-- Python `Drawing.remove_layer`. -/
def Drawing.remove_layer (d l : ℕ) (w : World) : World :=
  { w with layerC := w.layerC.detach d l }

/-- Python `layer.entities`. -/
def Layer.entities (l : ℕ) (w : World) : List ℕ := w.entityC.children l

/-- Python `Layer.add_entity`. -/
def Layer.add_entity (l e : ℕ) (w : World) : World :=
  { w with entityC := w.entityC.attach l e }

/-- Python `Layer.remove_entity`. -/
def Layer.remove_entity (l e : ℕ) (w : World) : World :=
  { w with entityC := w.entityC.detach l e }

/-- Python `Layer.hide`: `self.visible = False`. -/
def Layer.hide (l : ℕ) (w : World) : World :=
  { w with layerVisible := Function.update w.layerVisible l false }

/-- Python `Layer.show`: `self.visible = True` (written `show'` because `show`
is a Lean keyword). -/
def Layer.show' (l : ℕ) (w : World) : World :=
  { w with layerVisible := Function.update w.layerVisible l true }

/-- Python `Drawing.filter_layers(layers, exclude)`: when `layers` is `None`
filter the drawing's own list; keep the layers not in `exclude`. -/
def Drawing.filter_layers (d : ℕ) (layers : Option (List ℕ)) (exclude : List ℕ)
    (w : World) : List ℕ :=
  (match layers with
   | none => Drawing.layers d w
   | some ls => ls).filter (fun x => decide (x ∉ exclude))

/-- Python `Drawing.hide_layers(layers, exclude)`: hide each filtered layer. -/
def Drawing.hide_layers (d : ℕ) (layers : Option (List ℕ)) (exclude : List ℕ)
    (w : World) : World :=
  (Drawing.filter_layers d layers exclude w).foldl (fun w0 l => Layer.hide l w0) w

/-- Python `Drawing.isolate_layer`: `layer.show()` then
`self.hide_layers(exclude=[layer])`. -/
def Drawing.isolate_layer (d l : ℕ) (w : World) : World :=
  Drawing.hide_layers d none [l] (Layer.show' l w)

/-- Python `Drawing.add_constraint`: append to `self.constraints`. -/
def Drawing.add_constraint (d : ℕ) (c : Constraint) (w : World) : World :=
  { w with constraintsOf :=
      Function.update w.constraintsOf d (w.constraintsOf d ++ [c]) }

/-- Python `Drawing.solve`: build a fresh `SimplexSolver` and apply each
constraint of `self.constraints` to it in list order. -/
def Drawing.solve (d : ℕ) (w : World) (ps : PointStore) :
    PointStore × SimplexSolver :=
  (w.constraintsOf d).foldl (fun acc c => Constraint.apply c acc.1 acc.2)
    (ps, SimplexSolver.new)

/-- Python `LayerEntity.hide`: `self.visible = False` on an entity. -/
def LayerEntity.hide (e : ℕ) (w : World) : World :=
  { w with entityVisible := Function.update w.entityVisible e false }

/-- Python `LayerEntity.is_visible`: `if self.visible and self.layer.visible:
return True / return False`.  Python's `and` short-circuits: when the
entity's own `visible` flag is `False` the method returns `False` without
touching `self.layer`; only when the own flag is `True` is
`self.layer.visible` evaluated, and then a `None` back-pointer makes the
attribute access raise (`none` in the embedding). -/
def LayerEntity.is_visible (e : ℕ) (w : World) : Option Bool :=
  if w.entityVisible e then
    match w.entityC.parentOf e with
    | none => none
    | some l => if w.layerVisible l then some true else some false
  else some false

/-- The membership invariant of one containment level: a child's
back-pointer points at a parent exactly when the child is in that
parent's list, and no parent's list repeats a child. -/
def Containment.Inv (c : Containment) : Prop :=
  (∀ x p, x ∈ c.children p → c.parentOf x = some p) ∧
  (∀ x p, c.parentOf x = some p → x ∈ c.children p) ∧
  (∀ p, (c.children p).Nodup)

/-- The membership invariant at both levels of the object graph. -/
def World.Inv (w : World) : Prop :=
  w.layerC.Inv ∧ w.entityC.Inv

/-- A child is in at most one parent's list: membership in two lists
forces the parents equal, via the back-pointer. -/
theorem Containment.Inv.unique {c : Containment} (h : c.Inv) {x p p' : ℕ}
    (hp : x ∈ c.children p) (hp' : x ∈ c.children p') : p = p' :=
  Option.some.inj ((h.1 x p hp).symm.trans (h.1 x p' hp'))

/-- Operation `detach` preserves the membership invariant. -/
theorem Containment.Inv.detach {c : Containment} (h : c.Inv) (p x : ℕ) :
    (c.detach p x).Inv := by
  unfold Containment.detach
  by_cases hx : x ∈ c.children p
  · simp only [if_pos hx]
    obtain ⟨h1, h2, h3⟩ := h
    refine ⟨?_, ?_, ?_⟩
    · intro y q hy
      dsimp only at hy ⊢
      by_cases hq : q = p
      · subst hq
        rw [Function.update_same] at hy
        have hyx : y ≠ x := ((h3 q).mem_erase_iff.mp hy).1
        rw [Function.update_noteq hyx]
        exact h1 y q (List.mem_of_mem_erase hy)
      · rw [Function.update_noteq hq] at hy
        have hyq := h1 y q hy
        have hyx : y ≠ x := by
          rintro rfl
          exact hq (Option.some.inj (hyq.symm.trans (h1 _ p hx)))
        rw [Function.update_noteq hyx]
        exact hyq
    · intro y q hy
      dsimp only at hy ⊢
      by_cases hyx : y = x
      · subst hyx
        rw [Function.update_same] at hy
        cases hy
      · rw [Function.update_noteq hyx] at hy
        have hm := h2 y q hy
        by_cases hq : q = p
        · subst hq
          rw [Function.update_same]
          exact (List.mem_erase_of_ne hyx).mpr hm
        · rw [Function.update_noteq hq]
          exact hm
    · intro q
      dsimp only
      by_cases hq : q = p
      · subst hq
        rw [Function.update_same]
        exact (h3 q).erase x
      · rw [Function.update_noteq hq]
        exact h3 q
  · simp only [if_neg hx]
    exact h

/-- Operation `orphan` preserves the membership invariant. -/
theorem Containment.Inv.orphan {c : Containment} (h : c.Inv) (x : ℕ) :
    (c.orphan x).Inv := by
  unfold Containment.orphan
  rcases hp : c.parentOf x with _ | p0
  · exact h
  · exact h.detach p0 x

/-- After `orphan`, the child's back-pointer is cleared. -/
theorem Containment.orphan_parentOf {c : Containment} (h : c.Inv) (x : ℕ) :
    (c.orphan x).parentOf x = none := by
  unfold Containment.orphan
  rcases hp : c.parentOf x with _ | p0
  · exact hp
  · have hm : x ∈ c.children p0 := h.2.1 x p0 hp
    simp [Containment.detach, if_pos hm, Function.update_same]

/-- After `orphan`, the child is in no parent's list. -/
theorem Containment.orphan_not_mem {c : Containment} (h : c.Inv) (x q : ℕ) :
    x ∉ (c.orphan x).children q := by
  unfold Containment.orphan
  rcases hp : c.parentOf x with _ | p0
  · intro hx
    rw [h.1 x q hx] at hp
    cases hp
  · have hm : x ∈ c.children p0 := h.2.1 x p0 hp
    simp only [Containment.detach, if_pos hm]
    by_cases hq : q = p0
    · subst hq
      rw [Function.update_same]
      exact (h.2.2 q).not_mem_erase
    · rw [Function.update_noteq hq]
      intro hx
      exact hq (Option.some.inj ((h.1 x q hx).symm.trans hp))

/-- Operation `attach` preserves the membership invariant. -/
theorem Containment.Inv.attach {c : Containment} (h : c.Inv) (p x : ℕ) :
    (c.attach p x).Inv := by
  obtain ⟨i1, i2, i3⟩ := h.orphan x
  have hnm := Containment.orphan_not_mem h x
  unfold Containment.attach
  refine ⟨?_, ?_, ?_⟩
  · intro y q hy
    dsimp only at hy ⊢
    by_cases hq : q = p
    · subst hq
      rw [Function.update_same] at hy
      rcases List.mem_append.mp hy with hy | hy
      · have hyx : y ≠ x := fun hh => hnm q (hh ▸ hy)
        rw [Function.update_noteq hyx]
        exact i1 y q hy
      · have hyx : y = x := List.mem_singleton.mp hy
        subst hyx
        rw [Function.update_same]
    · rw [Function.update_noteq hq] at hy
      have hyx : y ≠ x := fun hh => hnm q (hh ▸ hy)
      rw [Function.update_noteq hyx]
      exact i1 y q hy
  · intro y q hy
    dsimp only at hy ⊢
    by_cases hyx : y = x
    · subst hyx
      rw [Function.update_same] at hy
      have hq : q = p := (Option.some.inj hy).symm
      subst hq
      rw [Function.update_same]
      exact List.mem_append.mpr (Or.inr (List.mem_singleton.mpr rfl))
    · rw [Function.update_noteq hyx] at hy
      have hm := i2 y q hy
      by_cases hq : q = p
      · subst hq
        rw [Function.update_same]
        exact List.mem_append.mpr (Or.inl hm)
      · rw [Function.update_noteq hq]
        exact hm
  · intro q
    dsimp only
    by_cases hq : q = p
    · subst hq
      rw [Function.update_same]
      exact List.nodup_append.mpr
        ⟨i3 q, List.nodup_singleton x,
         fun y hy hy' => hnm q ((List.mem_singleton.mp hy') ▸ hy)⟩
    · rw [Function.update_noteq hq]
      exact i3 q

/-- After `attach`, the child's back-pointer names the new parent and the
child is in the new parent's list. -/
theorem Containment.attach_spec (c : Containment) (p x : ℕ) :
    (c.attach p x).parentOf x = some p ∧ x ∈ (c.attach p x).children p := by
  unfold Containment.attach
  dsimp only
  refine ⟨by rw [Function.update_same], ?_⟩
  rw [Function.update_same]
  exact List.mem_append.mpr (Or.inr (List.mem_singleton.mpr rfl))

/-- After `attach`, the child is in no other parent's list. -/
theorem Containment.attach_not_mem {c : Containment} (h : c.Inv) {p q : ℕ}
    (x : ℕ) (hq : q ≠ p) : x ∉ (c.attach p x).children q := by
  unfold Containment.attach
  dsimp only
  rw [Function.update_noteq hq]
  exact Containment.orphan_not_mem h x q

/-- After `detach` of a current member, the back-pointer is cleared and
the child is gone from the parent's list. -/
theorem Containment.detach_spec {c : Containment} (h : c.Inv) {p x : ℕ}
    (hx : x ∈ c.children p) :
    (c.detach p x).parentOf x = none ∧ x ∉ (c.detach p x).children p := by
  simp only [Containment.detach, if_pos hx]
  refine ⟨by rw [Function.update_same], ?_⟩
  rw [Function.update_same]
  exact (h.2.2 p).not_mem_erase

/-- Folding `apply` over a constraint list threads the point store
through untouched and appends the constraints' traces in list order. -/
theorem Constraint.applyFold (cs : List Constraint) (ps : PointStore)
    (s : SimplexSolver) :
    cs.foldl (fun acc c => Constraint.apply c acc.1 acc.2) (ps, s) =
      (ps, ⟨s.commands ++ (cs.map Constraint.applyCmds).flatten⟩) := by
  induction cs generalizing s with
  | nil => cases s; simp
  | cons c t ih =>
    rw [List.foldl_cons, Constraint.apply_eq, ih]
    simp

/-- Every primitive a single constraint's `apply` registers is a linear
or quadratic equality in the sense of `Cmd.isLinQuadEquality`. -/
theorem Constraint.applyCmds_linquad (c : Constraint) (cmd : Cmd)
    (hc : cmd ∈ c.applyCmds) : cmd.isLinQuadEquality = true := by
  cases c <;>
    simp only [Constraint.applyCmds, Constraint.apply, SimplexSolver.new,
      SimplexSolver.add_stay, SimplexSolver.add_constraint, List.nil_append,
      List.mem_append, List.mem_singleton, List.mem_cons,
      List.not_mem_nil, or_false] at hc
  case FixedConstraint p =>
    rcases hc with rfl | rfl <;> rfl
  case HorizontalConstraint p1 p2 => subst hc; rfl
  case VerticalConstraint p1 p2 => subst hc; rfl
  case LengthConstraint p1 p2 len => subst hc; rfl
  case HorizontalLengthConstraint p1 p2 len => subst hc; rfl

/-- Claim C1: `Drawing.solve` constructs a fresh `SimplexSolver` and
applies every constraint of the drawing's constraints list to it in list
order — the order in which `add_constraint` appended them — registering
each constraint's primitives with that solver; it performs no other
computation of its own (in particular the registered trace is exactly the
concatenation of the per-constraint traces and the stored point
coordinates are untouched). -/
theorem C1_solve_applies_constraints_in_order (d : ℕ) (w : World)
    (ps : PointStore) (c : Constraint) :
    (Drawing.solve d w ps).2.commands =
      ((w.constraintsOf d).map Constraint.applyCmds).flatten ∧
    (Drawing.solve d w ps).1 = ps ∧
    (Drawing.add_constraint d c w).constraintsOf d = w.constraintsOf d ++ [c] := by
  refine ⟨?_, ?_, ?_⟩
  · rw [Drawing.solve, Constraint.applyFold]
    simp [SimplexSolver.new]
  · rw [Drawing.solve, Constraint.applyFold]
  · simp [Drawing.add_constraint, Function.update_same]

/-- Claim C2: every primitive a drawing registers with the external
solver is a linear or quadratic equality constraint; in particular a
`LengthConstraint` over `p1`, `p2` and length `len` registers exactly the
equality `sqrt((x2 - x1)**2 + (y2 - y1)**2) == len`, whose left-hand side
mentions exactly the two points' solver variables; over ℝ with a
nonnegative length that equality is equivalent to the quadratic equality
`(x2 - x1)^2 + (y2 - y1)^2 = len^2`. -/
theorem C2_registered_primitives_are_linquad_equalities (d : ℕ) (w : World)
    (ps : PointStore) (cmd : Cmd) (p1 p2 : Point) (len : ℚ)
    (x1 y1 x2 y2 L : ℝ) :
    (cmd ∈ (Drawing.solve d w ps).2.commands → cmd.isLinQuadEquality = true) ∧
    Constraint.applyCmds (Constraint.LengthConstraint p1 p2 len) =
      [Cmd.add_constraint
        (Expr.sqrtE (Expr.add
          (Expr.pow (Expr.sub (Expr.var p2.xvar) (Expr.var p1.xvar)) 2)
          (Expr.pow (Expr.sub (Expr.var p2.yvar) (Expr.var p1.yvar)) 2)))
        (Expr.const len)] ∧
    (Expr.sqrtE (Expr.add
      (Expr.pow (Expr.sub (Expr.var p2.xvar) (Expr.var p1.xvar)) 2)
      (Expr.pow (Expr.sub (Expr.var p2.yvar) (Expr.var p1.yvar)) 2))).varsOf =
      [p2.xvar, p1.xvar, p2.yvar, p1.yvar] ∧
    (0 ≤ L → (Real.sqrt ((x2 - x1) ^ 2 + (y2 - y1) ^ 2) = L ↔
      (x2 - x1) ^ 2 + (y2 - y1) ^ 2 = L ^ 2)) := by
  refine ⟨?_, rfl, rfl, ?_⟩
  · intro hc
    rw [Drawing.solve, Constraint.applyFold] at hc
    simp only [SimplexSolver.new, List.nil_append, List.mem_flatten,
      List.mem_map] at hc
    obtain ⟨_, ⟨c0, _, rfl⟩, hmem⟩ := hc
    exact Constraint.applyCmds_linquad c0 cmd hmem
  · intro hL
    have hnn : 0 ≤ (x2 - x1) ^ 2 + (y2 - y1) ^ 2 := by positivity
    constructor
    · intro hs
      rw [← hs, Real.sq_sqrt hnn]
    · intro hq
      rw [hq, Real.sqrt_sq hL]

/-- Claim C3: `HorizontalConstraint.apply` registers exactly one
primitive with the solver, the equality of `p1`'s and `p2`'s y solver
variables, and leaves the stored point coordinates unchanged. -/
theorem C3_horizontal_registers_y_equality (p1 p2 : Point) (ps : PointStore)
    (s : SimplexSolver) :
    Constraint.apply (Constraint.HorizontalConstraint p1 p2) ps s =
      (ps, ⟨s.commands ++
        [Cmd.add_constraint (Expr.var p1.yvar) (Expr.var p2.yvar)]⟩) ∧
    Constraint.applyCmds (Constraint.HorizontalConstraint p1 p2) =
      [Cmd.add_constraint (Expr.var p1.yvar) (Expr.var p2.yvar)] :=
  ⟨rfl, rfl⟩

/-- Claim C4: `VerticalConstraint.apply` registers exactly one primitive
with the solver, the equality of `p1`'s and `p2`'s x solver variables,
and leaves the stored point coordinates unchanged. -/
theorem C4_vertical_registers_x_equality (p1 p2 : Point) (ps : PointStore)
    (s : SimplexSolver) :
    Constraint.apply (Constraint.VerticalConstraint p1 p2) ps s =
      (ps, ⟨s.commands ++
        [Cmd.add_constraint (Expr.var p1.xvar) (Expr.var p2.xvar)]⟩) ∧
    Constraint.applyCmds (Constraint.VerticalConstraint p1 p2) =
      [Cmd.add_constraint (Expr.var p1.xvar) (Expr.var p2.xvar)] :=
  ⟨rfl, rfl⟩

/-- Claim C5: `FixedConstraint.apply` registers `REQUIRED` stays on both
of the point's solver variables, the x variable first and the y variable
second, and those variables carry the point's coordinates, so the point
is pinned at its current coordinates in the solver. -/
theorem C5_fixed_registers_required_stays (p : Point) (ps : PointStore)
    (s : SimplexSolver) :
    Constraint.apply (Constraint.FixedConstraint p) ps s =
      (ps, ⟨s.commands ++
        [Cmd.add_stay p.xvar Strength.REQUIRED,
         Cmd.add_stay p.yvar Strength.REQUIRED]⟩) ∧
    p.xvar.value = p.x ∧ p.yvar.value = p.y := by
  refine ⟨?_, rfl, rfl⟩
  rw [Constraint.apply_eq]
  rfl

/-- Hiding a list of layers in sequence sets exactly those layers'
visibility flags to `false` and leaves every other layer's flag alone. -/
theorem Drawing.hideFold_layerVisible (L : List ℕ) (w : World) (x : ℕ) :
    ((L.foldl (fun w0 l => Layer.hide l w0) w).layerVisible x) =
      if x ∈ L then false else w.layerVisible x := by
  induction L generalizing w with
  | nil => simp
  | cons a t ih =>
    rw [List.foldl_cons, ih]
    by_cases hx : x ∈ t
    · simp [hx]
    · by_cases hxa : x = a
      · subst hxa
        simp [hx, Layer.hide, Function.update_same]
      · simp [hx, hxa, Layer.hide, Function.update_noteq hxa]

/-- Hiding layers touches only the layer visibility flags: containment,
entity visibility and the constraint lists are untouched. -/
theorem Drawing.hideFold_frame (L : List ℕ) (w : World) :
    (L.foldl (fun w0 l => Layer.hide l w0) w).layerC = w.layerC ∧
    (L.foldl (fun w0 l => Layer.hide l w0) w).entityC = w.entityC ∧
    (L.foldl (fun w0 l => Layer.hide l w0) w).entityVisible = w.entityVisible ∧
    (L.foldl (fun w0 l => Layer.hide l w0) w).constraintsOf = w.constraintsOf := by
  induction L generalizing w with
  | nil => exact ⟨rfl, rfl, rfl, rfl⟩
  | cons a t ih =>
    rw [List.foldl_cons]
    exact ih (Layer.hide a w)

/-- Claim C6: parent/child membership stays consistent under every
add/remove operation — the membership invariant (a child is in a parent's
list exactly when its back-pointer names that parent, with no duplicate
entries) is preserved by `add_layer`, `remove_layer`, `add_entity` and
`remove_entity`; under it a layer is in at most one drawing's layers
list; `add_layer` appends the layer and sets its back-pointer to the new
drawing, removing it from any other drawing; `remove_layer` of a member
deletes it and clears the back-pointer; and symmetrically for entities in
layers. -/
theorem C6_membership_consistency (w : World) (d d' l l' e : ℕ)
    (hw : w.Inv) :
    World.Inv (Drawing.add_layer d l w) ∧
    World.Inv (Drawing.remove_layer d l w) ∧
    World.Inv (Layer.add_entity l e w) ∧
    World.Inv (Layer.remove_entity l e w) ∧
    (l ∈ Drawing.layers d w → w.layerC.parentOf l = some d) ∧
    (l ∈ Drawing.layers d w → l ∈ Drawing.layers d' w → d = d') ∧
    (Drawing.add_layer d l w).layerC.parentOf l = some d ∧
    l ∈ Drawing.layers d (Drawing.add_layer d l w) ∧
    (d' ≠ d → l ∉ Drawing.layers d' (Drawing.add_layer d l w)) ∧
    (l ∈ Drawing.layers d w →
      (Drawing.remove_layer d l w).layerC.parentOf l = none ∧
      l ∉ Drawing.layers d (Drawing.remove_layer d l w)) ∧
    (e ∈ Layer.entities l w → w.entityC.parentOf e = some l) ∧
    (e ∈ Layer.entities l w → e ∈ Layer.entities l' w → l = l') ∧
    (Layer.add_entity l e w).entityC.parentOf e = some l ∧
    e ∈ Layer.entities l (Layer.add_entity l e w) ∧
    (l' ≠ l → e ∉ Layer.entities l' (Layer.add_entity l e w)) ∧
    (e ∈ Layer.entities l w →
      (Layer.remove_entity l e w).entityC.parentOf e = none ∧
      e ∉ Layer.entities l (Layer.remove_entity l e w)) := by
  obtain ⟨hL, hE⟩ := hw
  refine ⟨⟨hL.attach d l, hE⟩, ⟨hL.detach d l, hE⟩, ⟨hL, hE.attach l e⟩,
    ⟨hL, hE.detach l e⟩, fun h => hL.1 l d h, fun h h' => hL.unique h h',
    (Containment.attach_spec w.layerC d l).1,
    (Containment.attach_spec w.layerC d l).2,
    fun hne => Containment.attach_not_mem hL l hne,
    fun hm => Containment.detach_spec hL hm,
    fun h => hE.1 e l h, fun h h' => hE.unique h h',
    (Containment.attach_spec w.entityC l e).1,
    (Containment.attach_spec w.entityC l e).2,
    fun hne => Containment.attach_not_mem hE e hne,
    fun hm => Containment.detach_spec hE hm⟩

/-- Claim C8: removing a layer that is not in the drawing's layers list
is a harmless no-op (the `ValueError` is swallowed), leaving the whole
world — the layers list and the layer's back-pointer included —
unchanged; likewise for removing an entity not in the layer's entities
list. -/
theorem C8_remove_nonmember_noop (w : World) (d l e : ℕ)
    (hl : l ∉ Drawing.layers d w) (he : e ∉ Layer.entities l w) :
    Drawing.remove_layer d l w = w ∧ Layer.remove_entity l e w = w := by
  have hl' : l ∉ w.layerC.children d := hl
  have he' : e ∉ w.entityC.children l := he
  constructor
  · show { w with layerC := w.layerC.detach d l } = w
    rw [Containment.detach, if_neg hl']
  · show { w with entityC := w.entityC.detach l e } = w
    rw [Containment.detach, if_neg he']

/-- Claim C9: after `isolate_layer`, the isolated layer is visible and
every other layer in the drawing's layers list is hidden; no entity's
individual visibility flag changes, and the object graph (and the layers
list in particular) is untouched — only layer-level flags change. -/
theorem C9_isolate_layer (w : World) (d l l' : ℕ) :
    (Drawing.isolate_layer d l w).layerVisible l = true ∧
    (l' ∈ Drawing.layers d w → l' ≠ l →
      (Drawing.isolate_layer d l w).layerVisible l' = false) ∧
    (Drawing.isolate_layer d l w).entityVisible = w.entityVisible ∧
    (Drawing.isolate_layer d l w).layerC = w.layerC ∧
    (Drawing.isolate_layer d l w).entityC = w.entityC := by
  have hvis : ∀ x, (Drawing.isolate_layer d l w).layerVisible x =
      if x ∈ Drawing.filter_layers d none [l] (Layer.show' l w) then false
      else (Layer.show' l w).layerVisible x :=
    fun x => Drawing.hideFold_layerVisible _ (Layer.show' l w) x
  have hframe := Drawing.hideFold_frame
    (Drawing.filter_layers d none [l] (Layer.show' l w)) (Layer.show' l w)
  refine ⟨?_, ?_, hframe.2.2.1, hframe.1, hframe.2.1⟩
  · rw [hvis l]
    simp [Drawing.filter_layers, List.mem_filter, Layer.show',
      Function.update_same]
  · intro hm hne
    rw [hvis l']
    have hmem : l' ∈ Drawing.filter_layers d none [l] (Layer.show' l w) := by
      simp [Drawing.filter_layers, List.mem_filter, Drawing.layers,
        Layer.show', hne]
      exact hm
    rw [if_pos hmem]

/-- Claim C10 amended: for an entity attached to a layer, `is_visible`
returns `True` exactly when both the entity's own flag and its layer's
flag are set; for a detached entity (layer back-pointer `None`) the
attribute access fails only when the entity's own flag is `True` — when
the own flag is `False`, the `and` short-circuits and `is_visible`
returns `False` without touching the layer. -/
theorem C10_amended_is_visible_short_circuit (w : World) (e l : ℕ) :
    (w.entityC.parentOf e = some l →
      (LayerEntity.is_visible e w = some true ↔
        (w.entityVisible e = true ∧ w.layerVisible l = true))) ∧
    (w.entityC.parentOf e = none →
      (w.entityVisible e = true → LayerEntity.is_visible e w = none) ∧
      (w.entityVisible e = false →
        LayerEntity.is_visible e w = some false)) := by
  constructor
  · intro hp
    cases h1 : w.entityVisible e
    · simp [LayerEntity.is_visible, h1]
    · cases h2 : w.layerVisible l <;>
        simp [LayerEntity.is_visible, hp, h1, h2]
  · intro hp
    constructor <;> intro h1 <;> simp [LayerEntity.is_visible, hp, h1]

/-- A concrete `HorizontalLengthConstraint`, as built by
`HorizontalLengthConstraint(point1, point2, 50)` in the test suite. -/
def cHL : Constraint :=
  Constraint.HorizontalLengthConstraint (Point.mk 1 10 10) (Point.mk 2 20 20) 50

/-- Claim C7 as stated is false: `HorizontalLengthConstraint` is a fifth
concrete `Constraint` subclass, and a value of it is none of the four
kinds horizontal, vertical, fixed, length. -/
theorem C7_counterexample_horizontal_length :
    ¬((∃ p, cHL = Constraint.FixedConstraint p) ∨
      (∃ p1 p2, cHL = Constraint.HorizontalConstraint p1 p2) ∨
      (∃ p1 p2, cHL = Constraint.VerticalConstraint p1 p2) ∨
      (∃ p1 p2 len, cHL = Constraint.LengthConstraint p1 p2 len)) := by
  rintro (⟨p, h⟩ | ⟨p1, p2, h⟩ | ⟨p1, p2, h⟩ | ⟨p1, p2, len, h⟩) <;>
    simp [cHL] at h

/-- Claim C7 amended: every concrete `Constraint` subclass the model
provides is one of five kinds — fixed, horizontal, vertical, length, or
horizontal-length. -/
theorem C7_amended_five_constraint_kinds (c : Constraint) :
    (∃ p, c = Constraint.FixedConstraint p) ∨
    (∃ p1 p2, c = Constraint.HorizontalConstraint p1 p2) ∨
    (∃ p1 p2, c = Constraint.VerticalConstraint p1 p2) ∨
    (∃ p1 p2 len, c = Constraint.LengthConstraint p1 p2 len) ∨
    (∃ p1 p2 len, c = Constraint.HorizontalLengthConstraint p1 p2 len) := by
  cases c with
  | FixedConstraint p => exact Or.inl ⟨p, rfl⟩
  | HorizontalConstraint p1 p2 => exact Or.inr (Or.inl ⟨p1, p2, rfl⟩)
  | VerticalConstraint p1 p2 => exact Or.inr (Or.inr (Or.inl ⟨p1, p2, rfl⟩))
  | LengthConstraint p1 p2 len =>
      exact Or.inr (Or.inr (Or.inr (Or.inl ⟨p1, p2, len, rfl⟩)))
  | HorizontalLengthConstraint p1 p2 len =>
      exact Or.inr (Or.inr (Or.inr (Or.inr ⟨p1, p2, len, rfl⟩)))

/-- A small concrete world: drawing `0` holds layers `1` and `2`, layer
`1` holds entity `5`, everything visible, and drawing `0` has one
horizontal constraint — mirroring the test suite's setup. -/
def wEx : World :=
  { layerC :=
      { children := fun p => if p = 0 then [1, 2] else [],
        parentOf := fun x => if x = 1 ∨ x = 2 then some 0 else none },
    entityC :=
      { children := fun p => if p = 1 then [5] else [],
        parentOf := fun x => if x = 5 then some 1 else none },
    layerVisible := fun _ => true,
    entityVisible := fun _ => true,
    constraintsOf := fun d =>
      if d = 0 then
        [Constraint.HorizontalConstraint (Point.mk 1 0 0) (Point.mk 2 5 5)]
      else [] }

/-- The example world satisfies the membership invariant. -/
theorem wEx_inv : wEx.Inv := by
  refine ⟨⟨?_, ?_, ?_⟩, ⟨?_, ?_, ?_⟩⟩
  · intro x p hx
    show (if x = 1 ∨ x = 2 then some 0 else none) = some p
    by_cases hp : p = 0
    · subst hp
      simp only [wEx] at hx
      simp at hx
      rcases hx with rfl | rfl <;> simp
    · simp only [wEx] at hx
      simp [hp] at hx
  · intro x p hx
    replace hx : (if x = 1 ∨ x = 2 then some 0 else none) = some p := hx
    show x ∈ (if p = 0 then [1, 2] else [])
    by_cases h12 : x = 1 ∨ x = 2
    · rw [if_pos h12] at hx
      have hp : p = 0 := (Option.some.inj hx).symm
      subst hp
      simp only [if_pos rfl]
      rcases h12 with rfl | rfl <;> simp
    · rw [if_neg h12] at hx
      cases hx
  · intro p
    show (if p = 0 then [1, 2] else ([] : List ℕ)).Nodup
    by_cases hp : p = 0 <;> simp [hp]
  · intro x p hx
    show (if x = 5 then some 1 else none) = some p
    by_cases hp : p = 1
    · subst hp
      simp only [wEx] at hx
      simp at hx
      subst hx
      simp
    · simp only [wEx] at hx
      simp [hp] at hx
  · intro x p hx
    replace hx : (if x = 5 then some 1 else none) = some p := hx
    show x ∈ (if p = 1 then [5] else [])
    by_cases h5 : x = 5
    · subst h5
      rw [if_pos rfl] at hx
      have hp : p = 1 := (Option.some.inj hx).symm
      subst hp
      simp
    · rw [if_neg h5] at hx
      cases hx
  · intro p
    show (if p = 1 then [5] else ([] : List ℕ)).Nodup
    by_cases hp : p = 1 <;> simp [hp]

/-- A concrete point store (all stored coordinates at the origin). -/
def psEx : PointStore := fun _ => (0, 0)

/-- Claim C10 as stated is false: a detached entity does not always make
`is_visible` fail — with its own `visible` flag `False` (here set by
`hide`) the `and` short-circuits and the method returns `False` (a value,
`some false`) even though the layer back-pointer is `None`. -/
theorem C10_counterexample_hidden_detached :
    (LayerEntity.hide 7 wEx).entityC.parentOf 7 = none ∧
    LayerEntity.is_visible 7 (LayerEntity.hide 7 wEx) = some false ∧
    LayerEntity.is_visible 7 (LayerEntity.hide 7 wEx) ≠ none := by
  decide

/-- Witness for C2 at the concrete world `wEx`: its one registered
primitive is in the solve trace and is a linear/quadratic equality, and
the semantic equivalence holds at `x2 = 3`, `y2 = 4`, `L = 5`. -/
theorem C2_witness :
    (Cmd.add_constraint (Expr.var (Point.mk 1 0 0).yvar)
        (Expr.var (Point.mk 2 5 5).yvar) ∈
      (Drawing.solve 0 wEx psEx).2.commands) ∧
    Cmd.isLinQuadEquality (Cmd.add_constraint (Expr.var (Point.mk 1 0 0).yvar)
        (Expr.var (Point.mk 2 5 5).yvar)) = true ∧
    (0 ≤ (5 : ℝ)) ∧
    (Real.sqrt (((3 : ℝ) - 0) ^ 2 + ((4 : ℝ) - 0) ^ 2) = 5 ↔
      ((3 : ℝ) - 0) ^ 2 + ((4 : ℝ) - 0) ^ 2 = 5 ^ 2) :=
  ⟨by decide,
   (C2_registered_primitives_are_linquad_equalities 0 wEx psEx
      (Cmd.add_constraint (Expr.var (Point.mk 1 0 0).yvar)
        (Expr.var (Point.mk 2 5 5).yvar))
      (Point.mk 1 0 0) (Point.mk 2 5 5) 0 0 0 3 4 5).1 (by decide),
   by norm_num,
   (C2_registered_primitives_are_linquad_equalities 0 wEx psEx
      (Cmd.add_constraint (Expr.var (Point.mk 1 0 0).yvar)
        (Expr.var (Point.mk 2 5 5).yvar))
      (Point.mk 1 0 0) (Point.mk 2 5 5) 0 0 0 3 4 5).2.2.2 (by norm_num)⟩

/-- Witness for C6 at the concrete world `wEx`: the invariant holds
there, layer 1 is a member of drawing 0 with the matching back-pointer,
and `add_layer` preserves the invariant. -/
theorem C6_witness :
    wEx.Inv ∧ (1 ∈ Drawing.layers 0 wEx) ∧
    wEx.layerC.parentOf 1 = some 0 ∧
    World.Inv (Drawing.add_layer 0 1 wEx) :=
  ⟨wEx_inv, by decide,
   (C6_membership_consistency wEx 0 0 1 0 5 wEx_inv).2.2.2.2.1 (by decide),
   (C6_membership_consistency wEx 0 0 1 0 5 wEx_inv).1⟩

/-- Witness for C8 at the concrete world `wEx`: layer 7 is not in
drawing 0, and removing it changes nothing. -/
theorem C8_witness :
    (7 ∉ Drawing.layers 0 wEx) ∧ (7 ∉ Layer.entities 7 wEx) ∧
    Drawing.remove_layer 0 7 wEx = wEx :=
  ⟨by decide, by decide,
   (C8_remove_nonmember_noop wEx 0 7 7 (by decide) (by decide)).1⟩

/-- Witness for C9 at the concrete world `wEx`: isolating layer 1 in
drawing 0 leaves layer 1 visible and hides the other member layer 2. -/
theorem C9_witness :
    (2 ∈ Drawing.layers 0 wEx) ∧ (2 ≠ 1) ∧
    (Drawing.isolate_layer 0 1 wEx).layerVisible 1 = true ∧
    (Drawing.isolate_layer 0 1 wEx).layerVisible 2 = false :=
  ⟨by decide, by decide, (C9_isolate_layer wEx 0 1 2).1,
   (C9_isolate_layer wEx 0 1 2).2.1 (by decide) (by decide)⟩

/-- Witness for C10 at the concrete world `wEx`: entity 5 is attached to
layer 1 and its visibility is the conjunction of the two flags; the
detached entity 7 makes `is_visible` fail while its own flag is set, and
returns `False` once it is hidden. -/
theorem C10_witness :
    (wEx.entityC.parentOf 5 = some 1) ∧
    (LayerEntity.is_visible 5 wEx = some true ↔
      (wEx.entityVisible 5 = true ∧ wEx.layerVisible 1 = true)) ∧
    (wEx.entityC.parentOf 7 = none) ∧ (wEx.entityVisible 7 = true) ∧
    LayerEntity.is_visible 7 wEx = none ∧
    ((LayerEntity.hide 7 wEx).entityC.parentOf 7 = none) ∧
    ((LayerEntity.hide 7 wEx).entityVisible 7 = false) ∧
    LayerEntity.is_visible 7 (LayerEntity.hide 7 wEx) = some false :=
  ⟨by decide,
   (C10_amended_is_visible_short_circuit wEx 5 1).1 (by decide),
   by decide, by decide,
   ((C10_amended_is_visible_short_circuit wEx 7 1).2 (by decide)).1 (by decide),
   by decide, by decide,
   ((C10_amended_is_visible_short_circuit (LayerEntity.hide 7 wEx) 7 1).2
     (by decide)).2 (by decide)⟩

end PyCad
